import Mathlib

/-!
Verification of `confusion-matrix-generator.py`.

A shallow embedding of the confusion-matrix generator script and proofs of the
specification claims about it.  The script reads a spreadsheet, normalizes the
header names, fuzzily matches the four confusion-matrix columns
(`true_positive`, `false_positive`, `true_negative`, `false_negative`),
tokenizes their free-text cells into candidate classifier labels, counts
case-insensitive substring matches per label per column, and writes a new
workbook with derived-formula cells.

Tables are modelled as a header list plus a list of rows of string cells
(`pandas` cells pass through `fillna("").astype(str)` before any use, so every
cell the script actually works with is a string).  Strings are modelled through
their underlying `List Char`.
-/

namespace CMG

/-- A word character in the sense of the regex `\W` used by the script:
alphanumeric or underscore (ASCII, which covers all inputs considered here). -/
def isWordChar (c : Char) : Bool := c.isAlphanum || c == '_'

/-- ASCII lowercasing of a character, as done by `str.lower()` /
`.str.lower()` on the (ASCII) data the script handles:
code points 65–90 (`A`–`Z`) are shifted by 32, everything else is fixed. -/
def lowerChar (c : Char) : Char :=
  if 65 ≤ c.toNat ∧ c.toNat ≤ 90 then Char.ofNat (c.toNat + 32) else c

/-- Lowercasing of a string (`.str.lower()` in `count_classifiers`). -/
def lowerStr (s : String) : String := String.mk (s.data.map lowerChar)

/-- Python `str.strip()`: remove leading and trailing whitespace. -/
def trimStr (s : String) : String :=
  String.mk (((s.data.dropWhile Char.isWhitespace).reverse.dropWhile
      Char.isWhitespace).reverse)

/-- Pandas `.str.replace(" ", "_")` with a one-character literal pattern: replace
every space character by an underscore. -/
def underscoreSpaces (s : String) : String :=
  String.mk (s.data.map fun c => if c = ' ' then '_' else c)

/-- Predicate `leadMatch p s` holds when the pattern `p` matches the beginning of `s`. -/
def leadMatch : List Char → List Char → Bool
  | [], _ => true
  | _ :: _, [] => false
  | p :: ps, s :: ss => p == s && leadMatch ps ss

/-- Predicate `occursIn p s` holds when the pattern `p` occurs contiguously somewhere in
`s` (Python's `p in s` substring test, also the semantics of
`Series.str.contains(p, regex=False)`). -/
def occursIn : List Char → List Char → Bool
  | p, [] => leadMatch p []
  | p, s :: ss => leadMatch p (s :: ss) || occursIn p ss

/-- Predicate `strContains s pat`: the string `s` contains `pat` as a substring
(Python `pat in s`). -/
def strContains (s pat : String) : Bool := occursIn pat.data s.data

/-- The maximal runs of word characters of a character list.  This models
`re.split(r'\W+', text)` followed by the script's `.str.strip()` and
`!= ""` filter: `re.split(r'\W+', ·)` returns exactly the maximal word-character
runs plus possibly empty boundary tokens, the `!= ""` comparison drops those
boundary tokens, and stripping a run of word characters (none of which is
whitespace) is the identity, so the surviving tokens are exactly these runs. -/
def wordRuns : List Char → List (List Char)
  | [] => []
  | [c] => if isWordChar c then [[c]] else []
  | c :: d :: cs =>
    if isWordChar c then
      if isWordChar d then
        match wordRuns (d :: cs) with
        | r :: rs => (c :: r) :: rs
        | [] => []
      else [c] :: wordRuns (d :: cs)
    else wordRuns (d :: cs)

/-- Lexicographic comparison of character lists by code point, the order
used by Python's `sorted` on strings. -/
def lexLe : List Char → List Char → Bool
  | [], _ => true
  | _ :: _, [] => false
  | a :: as, b :: bs =>
    if a.toNat < b.toNat then true
    else if b.toNat < a.toNat then false
    else lexLe as bs

/-- Lexicographic comparison of strings by code point (Python `sorted`). -/
def strLeB (s t : String) : Bool := lexLe s.data t.data

/-- An input table: a list of header names and a list of rows of string
cells. -/
structure Table where
  headers : List String
  rows : List (List String)
deriving DecidableEq

/-- The four expected semantic column keys, in the order the script's
`col_map` dictionary lists them. -/
def keyList : List String :=
  ["true_positive", "false_positive", "true_negative", "false_negative"]

/-- Header normalization from `normalize_columns` (line 62):
`str.strip().str.lower().str.replace(" ", "_")`. -/
def normalizeHeader (h : String) : String :=
  underscoreSpaces (lowerStr (trimStr h))

/-- Function `normalize_columns` applied to a table: normalize every header name,
leave the cells untouched. -/
def normalizeColumns (t : Table) : Table :=
  ⟨t.headers.map normalizeHeader, t.rows⟩

/-- The header matched to an expected column key:
`next((c for c in df.columns if key in c), None)` over the normalized
headers (lines 82–85). -/
def matchedHeader (t : Table) (k : String) : Option String :=
  (normalizeColumns t).headers.find? fun c => strContains c k

/-- The cell values of the column named `name`, looked up by the first header
with that exact name; a missing name or a short row yields `""` cells.
This is the value `df[name]` has when `name` labels exactly one column.  When
several (normalized) headers share the name, pandas `df[name]` is a DataFrame
instead of a Series and line 95's `.str` raises an unhandled
`AttributeError`, killing the process: that termination path is modelled by
`dupCrash` and `runMain` below, so the first-column value used here is only
consulted on tables the script processes to completion. -/
def colByName (t : Table) (name : String) : List String :=
  match t.headers.findIdx? (fun h => h == name) with
  | some i => t.rows.map fun r => r.getD i ""
  | none => t.rows.map fun _ => ""

/-- The original (not lowercased) cells backing the expected column `k`:
the matched column's cells when a header matches, and the all-`""` substitute
column `df[k] = ""` of line 93 otherwise. -/
def origColumn (t : Table) (k : String) : List String :=
  match matchedHeader t k with
  | some v => colByName (normalizeColumns t) v
  | none => t.rows.map fun _ => ""

/-- The effective column the script computes for key `k` (line 95):
`df[v].fillna("").astype(str).str.lower()` when a header matches, and the
`""` substitute otherwise (lowercasing `""` cells is the identity, so both
cases are the lowercased `origColumn`). -/
def effColumn (t : Table) (k : String) : List String :=
  (origColumn t k).map lowerStr

/-- The keys whose expected column was found (`present_cols`, line 96). -/
def presentKeys (t : Table) : List String :=
  keyList.filter fun k => (matchedHeader t k).isSome

/-- The keys whose expected column was not found. -/
def missingKeys (t : Table) : List String :=
  keyList.filter fun k => (matchedHeader t k).isNone

/-- The warning messages printed by the `v is None` branch of lines 91–93,
one per missing expected column. -/
def warnings (t : Table) : List String :=
  (missingKeys t).map fun k =>
    "Warning: Column " ++ k ++ " not found in Excel. Skipping."

/-- The candidate label tokens of one cell:
`re.split(r'\W+', cell)` via `wordRuns` (see there). -/
def cellTokens (s : String) : List String :=
  (wordRuns s.data).map fun cs => String.mk cs

/-- The label tokens contributed by one (already lowercased) column, line
103–104: split every cell, strip every token, keep the non-empty ones.
The per-column `.unique()` is not applied here; deduplication happens once
below, which yields the same final set. -/
def columnTokens (col : List String) : List String :=
  ((col.map fun cell => (cellTokens cell).map trimStr).flatten).filter
    fun tok => tok != ""

/-- List `CLASSIFIERS` (lines 100–106): the union of the token sets of the present
columns, sorted lexicographically.  `set.update` + per-column `.unique()` +
`sorted(list(...))` is modelled as concatenation, `dedup`, and an insertion
sort: both produce the sorted list of the distinct tokens. -/
def classifiers (t : Table) : List String :=
  List.insertionSort (fun a b => strLeB a b = true)
    ((((presentKeys t).map fun k => columnTokens (effColumn t k)).flatten).dedup)

/-- One line of the counting loop (lines 112–115):
`df[col].str.contains(cond, case=False, na=False, regex=False).sum()`, i.e. the
number of cells of the column whose lowercased text contains the lowercased
`cond` as a substring. -/
def countContains (col : List String) (cond : String) : Nat :=
  (col.filter fun cell => strContains (lowerStr cell) (lowerStr cond)).length

/-- One row of the result table (line 118); the six trailing `""` placeholder
cells carry no data and are represented by the formula model below. -/
structure ResultRow where
  condition : String
  tp : Nat
  fp : Nat
  tn : Nat
  fn : Nat
deriving DecidableEq

/-- The result row built for one classifier label (lines 112–118). -/
def resultRow (t : Table) (cond : String) : ResultRow :=
  ⟨cond,
    countContains (effColumn t "true_positive") cond,
    countContains (effColumn t "false_positive") cond,
    countContains (effColumn t "true_negative") cond,
    countContains (effColumn t "false_negative") cond⟩

/-- Function `count_classifiers` (lines 69–121): one result row per extracted
classifier label, in sorted label order. -/
def countClassifiers (t : Table) : List ResultRow :=
  (classifiers t).map (resultRow t)

/-- The count a result row records for a semantic column key. -/
def categoryCount (r : ResultRow) (k : String) : Nat :=
  if k = "true_positive" then r.tp
  else if k = "false_positive" then r.fp
  else if k = "true_negative" then r.tn
  else r.fn

/-- Case-insensitive substring containment, the counting criterion the spec
describes: the cell text contains the label up to case. -/
def ciContains (cell lab : String) : Bool :=
  strContains (lowerStr cell) (lowerStr lab)

/-- The number of rows of a column whose cell text contains the label as a
case-insensitive substring. -/
def rowsContaining (col : List String) (lab : String) : Nat :=
  (col.filter fun cell => ciContains cell lab).length

/-- Whitespace removal; two strings are "equal up to whitespace" when their
`stripWs` images coincide.  Used to state the whitespace-insensitivity
claim about header matching. -/
def stripWs (s : String) : String :=
  String.mk (s.data.filter fun c => !c.isWhitespace)

/-- The label list exactly as the claim describes it: split the (raw, not
lowercased) text of the four semantic columns' cells on runs of non-word
characters, discard empty tokens (`cellTokens` only ever returns non-empty
tokens), take the deduplicated union over all cells of all four columns, and
sort lexicographically.  A missing column has no cells and contributes
nothing. -/
def specLabelsRaw (t : Table) : List String :=
  List.insertionSort (fun a b => strLeB a b = true)
    (((keyList.map fun k =>
        match matchedHeader t k with
        | none => []
        | some _ => ((origColumn t k).map fun cell => cellTokens cell).flatten).flatten).dedup)

/-- The amended label list: as `specLabelsRaw`, but tokens are taken from the
lowercased cell text (the script lowercases every matched column before
tokenizing, so all extracted labels are lowercase). -/
def specLabels (t : Table) : List String :=
  List.insertionSort (fun a b => strLeB a b = true)
    (((keyList.map fun k =>
        match matchedHeader t k with
        | none => []
        | some _ => ((origColumn t k).map fun cell =>
            cellTokens (lowerStr cell)).flatten).flatten).dedup)

/-! ## The formula model for the output sheet

`write_excel_with_formulas` writes, for each result row `i` (2-based), the
formula strings of lines 146–154.  The formulas are represented as a small
AST (`Fml`), rendered to the exact strings the script writes, and evaluated
with spreadsheet semantics (`/` errors on a zero divisor, `IFERROR` replaces
an error by the default `0`). -/

/-- A cell reference of result row `i`: column B–E hold the four counts,
I and J hold the positive/negative ground-truth cells. -/
inductive CellRef
  | B
  | C
  | D
  | E
  | I
  | J
deriving DecidableEq

/-- Arithmetic expressions appearing in the written formulas. -/
inductive FExpr
  | ref (r : CellRef)
  | add (a b : FExpr)
  | div (a b : FExpr)
deriving DecidableEq

/-- A written formula: `=IFERROR(e, 0)` (`spaced` records whether the
source writes `", 0)"` as on line 146 or `",0)"` as on line 147) or
`=SUM(e)`. -/
inductive Fml
  | iferror (e : FExpr) (spaced : Bool)
  | sum (e : FExpr)
deriving DecidableEq

def renderRef (i : Nat) : CellRef → String
  | .B => "B" ++ toString i
  | .C => "C" ++ toString i
  | .D => "D" ++ toString i
  | .E => "E" ++ toString i
  | .I => "I" ++ toString i
  | .J => "J" ++ toString i

/-- Rendering of expressions; the script always parenthesizes the divisor
(`B{i}/(B{i}+E{i})`), so `div` renders its second argument in parentheses. -/
def renderExpr (i : Nat) : FExpr → String
  | .ref r => renderRef i r
  | .add a b => renderExpr i a ++ "+" ++ renderExpr i b
  | .div a b => renderExpr i a ++ "/(" ++ renderExpr i b ++ ")"

def renderFml (i : Nat) : Fml → String
  | .iferror e spaced =>
    "=IFERROR(" ++ renderExpr i e ++ (if spaced then ", 0)" else ",0)")
  | .sum e => "=SUM(" ++ renderExpr i e ++ ")"

/-- Line 146, cell `F{i}`: `=IFERROR(B{i}/(B{i}+E{i}), 0)` (sensitivity). -/
def sensF : Fml := .iferror (.div (.ref .B) (.add (.ref .B) (.ref .E))) true

/-- Line 147, cell `G{i}`: `=IFERROR(D{i}/(D{i}+C{i}),0)` (specificity). -/
def specF : Fml := .iferror (.div (.ref .D) (.add (.ref .D) (.ref .C))) false

/-- Line 151, cell `H{i}`: `=SUM(B{i}+C{i})` (check = TP + FP). -/
def checkF : Fml := .sum (.add (.ref .B) (.ref .C))

/-- Line 152, cell `I{i}`: `=SUM(B{i}+E{i})` (positive ground truth). -/
def posGtF : Fml := .sum (.add (.ref .B) (.ref .E))

/-- Line 153, cell `J{i}`: `=SUM(D{i}+C{i})` (negative ground truth). -/
def negGtF : Fml := .sum (.add (.ref .D) (.ref .C))

/-- Line 154, cell `K{i}`: `=SUM(I{i}+J{i})` (ground truth check). -/
def gtCheckF : Fml := .sum (.add (.ref .I) (.ref .J))

/-- Spreadsheet evaluation of an expression: a division by zero is an
error (`none`). -/
def evalExpr (env : CellRef → ℚ) : FExpr → Option ℚ
  | .ref r => some (env r)
  | .add a b =>
    match evalExpr env a, evalExpr env b with
    | some x, some y => some (x + y)
    | _, _ => none
  | .div a b =>
    match evalExpr env a, evalExpr env b with
    | some x, some y => if y = 0 then none else some (x / y)
    | _, _ => none

/-- Spreadsheet evaluation of a formula.  `IFERROR` replaces an error by the
default `0`; the `SUM` formulas of the script wrap error-free expressions, so
their default is never consulted. -/
def evalFml (env : CellRef → ℚ) : Fml → ℚ
  | .iferror e _ => (evalExpr env e).getD 0
  | .sum e => (evalExpr env e).getD 0

/-- The cell values of result row `i`: B–E are the four counts; I and J hold
the values displayed by their own `SUM` formulas (the consistency of this
environment with `posGtF`/`negGtF` is part of the formula theorem). -/
def rowEnv (tp fp tn fn : ℚ) : CellRef → ℚ
  | .B => tp
  | .C => fp
  | .D => tn
  | .E => fn
  | .I => tp + fn
  | .J => tn + fp

/-! ## The output workbook and the top-level program -/

theorem leadMatch_iff (p s : List Char) :
    leadMatch p s = true ↔ ∃ r, s = p ++ r := by
  induction p generalizing s with
  | nil => simp [leadMatch]
  | cons a as ih =>
    cases s with
    | nil =>
      simp [leadMatch]
    | cons b bs =>
      simp only [leadMatch, Bool.and_eq_true, beq_iff_eq, List.cons_append,
        List.cons.injEq, ih]
      constructor
      · rintro ⟨rfl, r, rfl⟩
        exact ⟨r, rfl, rfl⟩
      · rintro ⟨r, rfl, rfl⟩
        exact ⟨rfl, r, rfl⟩

theorem occursIn_iff (p s : List Char) :
    occursIn p s = true ↔ ∃ l r, s = l ++ p ++ r := by
  induction s with
  | nil =>
    simp only [occursIn, leadMatch_iff]
    constructor
    · rintro ⟨r, hr⟩
      exact ⟨[], r, by simp [← hr]⟩
    · rintro ⟨l, r, hl⟩
      obtain ⟨h1, h2⟩ := List.append_eq_nil.mp hl.symm
      obtain ⟨h3, h4⟩ := List.append_eq_nil.mp h1
      exact ⟨[], by simp [h4]⟩
  | cons b bs ih =>
    simp only [occursIn, Bool.or_eq_true, leadMatch_iff, ih]
    constructor
    · rintro (⟨r, hr⟩ | ⟨l, r, hr⟩)
      · exact ⟨[], r, by simpa using hr⟩
      · exact ⟨b :: l, r, by simp [hr]⟩
    · rintro ⟨l, r, hr⟩
      cases l with
      | nil => exact Or.inl ⟨r, by simpa using hr⟩
      | cons x xs =>
        rw [List.cons_append, List.cons_append] at hr
        injection hr with h1 h2
        exact Or.inr ⟨xs, r, by simpa using h2⟩

/-- Substring containment is transitive. -/
theorem occursIn_trans {a b s : List Char} (h1 : occursIn b s = true)
    (h2 : occursIn a b = true) : occursIn a s = true := by
  obtain ⟨l1, r1, rfl⟩ := (occursIn_iff b s).mp h1
  obtain ⟨l2, r2, rfl⟩ := (occursIn_iff a b).mp h2
  exact (occursIn_iff a _).mpr ⟨l1 ++ l2, r2 ++ r1, by simp⟩

/-- Substring containment is preserved by character-wise maps. -/
theorem occursIn_map (f : Char → Char) {p s : List Char}
    (h : occursIn p s = true) : occursIn (p.map f) (s.map f) = true := by
  obtain ⟨l, r, rfl⟩ := (occursIn_iff p s).mp h
  exact (occursIn_iff _ _).mpr ⟨l.map f, r.map f, by simp⟩

theorem lowerChar_lowerChar (c : Char) : lowerChar (lowerChar c) = lowerChar c := by
  by_cases h : 65 ≤ c.toNat ∧ c.toNat ≤ 90
  · have hc : lowerChar c = Char.ofNat (c.toNat + 32) := by
      rw [lowerChar, if_pos h]
    rw [hc]
    obtain ⟨h1, h2⟩ := h
    generalize c.toNat = m at h1 h2
    interval_cases m <;> decide
  · have hc : lowerChar c = c := by rw [lowerChar, if_neg h]
    rw [hc, hc]

theorem lowerStr_lowerStr (s : String) : lowerStr (lowerStr s) = lowerStr s := by
  unfold lowerStr
  rw [List.map_map]
  congr 1
  exact List.map_congr_left fun c _ => lowerChar_lowerChar c

/-- Lowercasing both sides preserves substring containment. -/
theorem strContains_lower {s pat : String} (h : strContains s pat = true) :
    strContains (lowerStr s) (lowerStr pat) = true := by
  unfold strContains at h ⊢
  exact occursIn_map lowerChar h

theorem lexLe_total (a b : List Char) : lexLe a b = true ∨ lexLe b a = true := by
  induction a generalizing b with
  | nil => left; rfl
  | cons x xs ih =>
    cases b with
    | nil => right; rfl
    | cons y ys =>
      rcases Nat.lt_trichotomy x.toNat y.toNat with h | h | h
      · left; simp [lexLe, h]
      · simp only [lexLe, h, Nat.lt_irrefl, if_false]
        exact ih ys
      · right; simp [lexLe, h]

theorem lexLe_trans {a b c : List Char} (h1 : lexLe a b = true)
    (h2 : lexLe b c = true) : lexLe a c = true := by
  induction a generalizing b c with
  | nil => rfl
  | cons x xs ih =>
    cases b with
    | nil => simp [lexLe] at h1
    | cons y ys =>
      cases c with
      | nil => simp [lexLe] at h2
      | cons z zs =>
        simp only [lexLe] at h1 h2 ⊢
        rcases Nat.lt_trichotomy x.toNat y.toNat with hxy | hxy | hxy
        · rcases Nat.lt_trichotomy y.toNat z.toNat with hyz | hyz | hyz
          · rw [if_pos (by omega)]
          · rw [if_pos (by omega)]
          · rw [if_neg (by omega), if_pos hyz] at h2
            exact absurd h2 (by simp)
        · rw [if_neg (by omega), if_neg (by omega)] at h1
          rcases Nat.lt_trichotomy y.toNat z.toNat with hyz | hyz | hyz
          · rw [if_pos (by omega)]
          · rw [if_neg (by omega), if_neg (by omega)] at h2 ⊢
            exact ih h1 h2
          · rw [if_neg (by omega), if_pos hyz] at h2
            exact absurd h2 (by simp)
        · rw [if_neg (by omega), if_pos hxy] at h1
          exact absurd h1 (by simp)

theorem char_toNat_inj {a b : Char} (h : a.toNat = b.toNat) : a = b :=
  Char.ext (UInt32.ext h)

theorem lexLe_antisymm {a b : List Char} (h1 : lexLe a b = true)
    (h2 : lexLe b a = true) : a = b := by
  induction a generalizing b with
  | nil =>
    cases b with
    | nil => rfl
    | cons y ys => simp [lexLe] at h2
  | cons x xs ih =>
    cases b with
    | nil => simp [lexLe] at h1
    | cons y ys =>
      simp only [lexLe] at h1 h2
      rcases Nat.lt_trichotomy x.toNat y.toNat with h | h | h
      · rw [if_neg (by omega), if_pos h] at h2
        exact absurd h2 (by simp)
      · rw [if_neg (by omega), if_neg (by omega)] at h1 h2
        rw [char_toNat_inj h, ih h1 h2]
      · rw [if_pos h] at h1
        rw [if_neg (by omega)] at h1
        exact absurd h1 (by simp)

instance : IsTotal String fun a b => strLeB a b = true :=
  ⟨fun a b => lexLe_total a.data b.data⟩

instance : IsTrans String fun a b => strLeB a b = true :=
  ⟨fun _ _ _ => lexLe_trans⟩

instance : IsAntisymm String fun a b => strLeB a b = true :=
  ⟨fun a b h1 h2 => by
    cases a; cases b
    exact congrArg String.mk (lexLe_antisymm h1 h2)⟩

/-! ## Lemmas about tokenization -/

/-- Every run produced by `wordRuns` is non-empty and consists of word
characters only. -/
theorem wordRuns_sound :
    ∀ l : List Char, ∀ r ∈ wordRuns l, r ≠ [] ∧ ∀ c ∈ r, isWordChar c = true := by
  intro l
  induction l using wordRuns.induct with
  | case1 => intro r hr; simp [wordRuns] at hr
  | case2 c hc =>
    intro r hr
    simp only [wordRuns, if_pos hc, List.mem_singleton] at hr
    subst hr
    refine ⟨by simp, fun x hx => ?_⟩
    rcases List.mem_singleton.mp hx with rfl
    exact hc
  | case3 c hc =>
    intro r hr
    simp only [wordRuns, if_neg hc] at hr
    simp at hr
  | case4 c d cs hc hd r' rs' hrec ih =>
    intro r hr
    simp only [wordRuns, if_pos hc, if_pos hd, hrec, List.mem_cons] at hr
    rcases hr with rfl | hr
    · refine ⟨by simp, fun x hx => ?_⟩
      rcases List.mem_cons.mp hx with rfl | hx
      · exact hc
      · exact (ih r' (by simp [hrec])).2 x hx
    · exact ih r (by simp [hrec, hr])
  | case5 c d cs hc hd hrec ih =>
    intro r hr
    simp only [wordRuns, if_pos hc, if_pos hd, hrec] at hr
    simp at hr
  | case6 c d cs hc hd ih =>
    intro r hr
    simp only [wordRuns, if_pos hc, if_neg hd, List.mem_cons] at hr
    rcases hr with rfl | hr
    · refine ⟨by simp, fun x hx => ?_⟩
      rcases List.mem_singleton.mp hx with rfl
      exact hc
    · exact ih r hr
  | case7 c d cs hc ih =>
    intro r hr
    simp only [wordRuns, if_neg hc] at hr
    exact ih r hr

/-- A word character is not whitespace. -/
theorem isWordChar_not_whitespace {c : Char} (h : isWordChar c = true) :
    c.isWhitespace = false := by
  by_contra hw
  have hw' : c.isWhitespace = true := by
    cases hws : c.isWhitespace
    · exact absurd hws hw
    · rfl
  have h4 : ((c = ' ' ∨ c = '\t') ∨ c = '\r') ∨ c = '\n' := by
    simpa [Char.isWhitespace] using hw'
  rcases h4 with ((rfl | rfl) | rfl) | rfl <;> exact absurd h (by decide)

theorem dropWhile_eq_self_of_none {p : α → Bool} {l : List α}
    (h : ∀ x ∈ l, p x = false) : l.dropWhile p = l := by
  cases l with
  | nil => rfl
  | cons a l => rw [List.dropWhile_cons, h a (by simp)]; simp

/-- Stripping a token that consists of word characters is the identity. -/
theorem trimStr_id_of_word {tok : String}
    (h : ∀ c ∈ tok.data, isWordChar c = true) : trimStr tok = tok := by
  unfold trimStr
  rw [dropWhile_eq_self_of_none fun x hx => isWordChar_not_whitespace (h x hx),
    dropWhile_eq_self_of_none fun x hx =>
      isWordChar_not_whitespace (h x (List.mem_reverse.mp hx)),
    List.reverse_reverse]

/-- Every token of a cell is non-empty. -/
theorem cellTokens_ne_empty {s : String} {tok : String}
    (h : tok ∈ cellTokens s) : tok ≠ "" := by
  obtain ⟨cs, hcs, rfl⟩ := List.mem_map.mp h
  obtain ⟨hne, -⟩ := wordRuns_sound s.data cs hcs
  cases cs with
  | nil => exact absurd rfl hne
  | cons c cs => intro h; exact absurd (congrArg String.data h) (by simp)

/-- Every token of a cell consists of word characters. -/
theorem cellTokens_word {s : String} {tok : String}
    (h : tok ∈ cellTokens s) : ∀ c ∈ tok.data, isWordChar c = true := by
  obtain ⟨cs, hcs, rfl⟩ := List.mem_map.mp h
  exact (wordRuns_sound s.data cs hcs).2

/-! ## Lemmas about counting -/

/-- Counting over the lowercased column (what the code does) is the same as
counting case-insensitive containment over the original column, because
lowercasing is idempotent. -/
theorem countContains_map_lower (col : List String) (cond : String) :
    countContains (col.map lowerStr) cond = rowsContaining col cond := by
  unfold countContains rowsContaining
  rw [List.filter_map, List.length_map]
  congr 1
  apply List.filter_congr
  intro cell _
  simp only [Function.comp_apply, ciContains, lowerStr_lowerStr]

theorem origColumn_length (t : Table) (k : String) :
    (origColumn t k).length = t.rows.length := by
  unfold origColumn
  split
  · unfold colByName
    split
    · simp [normalizeColumns]
    · simp [normalizeColumns]
  · simp

theorem categoryCount_resultRow (t : Table) (cond : String) :
    ∀ k ∈ keyList, categoryCount (resultRow t cond) k =
      rowsContaining (origColumn t k) cond := by
  intro k hk
  fin_cases hk
  · exact countContains_map_lower (origColumn t "true_positive") cond
  · exact countContains_map_lower (origColumn t "false_positive") cond
  · exact countContains_map_lower (origColumn t "true_negative") cond
  · exact countContains_map_lower (origColumn t "false_negative") cond

theorem length_filter_mono {α : Type} (l : List α) (p q : α → Bool)
    (h : ∀ x ∈ l, p x = true → q x = true) :
    (l.filter p).length ≤ (l.filter q).length := by
  induction l with
  | nil => simp
  | cons a l ih =>
    have ih' := ih fun x hx => h x (by simp [hx])
    by_cases hp : p a = true
    · rw [List.filter_cons_of_pos hp, List.filter_cons_of_pos (h a (by simp) hp)]
      simpa using ih'
    · rw [List.filter_cons_of_neg (by simpa using hp)]
      by_cases hq : q a = true
      · rw [List.filter_cons_of_pos hq]
        exact ih'.trans (by simp)
      · rw [List.filter_cons_of_neg (by simpa using hq)]
        exact ih'

theorem rowsContaining_zero {col : List String} {lab : String}
    (h : ∀ cell ∈ col, ciContains cell lab = false) :
    rowsContaining col lab = 0 := by
  unfold rowsContaining
  have hnil : col.filter (fun cell => ciContains cell lab) = [] :=
    List.filter_eq_nil_iff.mpr fun a ha => by simp [h a ha]
  rw [hnil]
  rfl

theorem mem_countClassifiers {t : Table} {r : ResultRow} :
    r ∈ countClassifiers t ↔ ∃ c ∈ classifiers t, r = resultRow t c := by
  unfold countClassifiers
  constructor
  · intro h
    obtain ⟨c, hc, rfl⟩ := List.mem_map.mp h
    exact ⟨c, hc, rfl⟩
  · rintro ⟨c, hc, rfl⟩
    exact List.mem_map_of_mem _ hc

/-- Every extracted classifier label is a non-empty token. -/
theorem classifiers_ne_empty {t : Table} : ∀ c ∈ classifiers t, c ≠ "" := by
  intro c hc
  unfold classifiers at hc
  rw [List.mem_insertionSort, List.mem_dedup, List.mem_flatten] at hc
  obtain ⟨lcol, hlcol, hcmem⟩ := hc
  obtain ⟨k, hk, rfl⟩ := List.mem_map.mp hlcol
  have := (List.mem_filter.mp hcmem).2
  simpa using this

theorem countContains_anti (col : List String) {a b : String}
    (hab : strContains b a = true) :
    countContains col b ≤ countContains col a := by
  unfold countContains
  apply length_filter_mono
  intro cell _ hcell
  have hl : strContains (lowerStr b) (lowerStr a) = true := strContains_lower hab
  unfold strContains at hcell hl ⊢
  exact occursIn_trans hcell hl

theorem countContains_effColumn_le (t : Table) (k cond : String) :
    countContains (effColumn t k) cond ≤ t.rows.length := by
  unfold countContains
  have h1 := List.length_filter_le
    (fun cell => strContains (lowerStr cell) (lowerStr cond)) (effColumn t k)
  have h2 : (effColumn t k).length = t.rows.length := by
    unfold effColumn
    rw [List.length_map, origColumn_length]
  omega

theorem perm_flatten {α : Type} {l₁ l₂ : List (List α)} (h : l₁.Perm l₂) :
    l₁.flatten.Perm l₂.flatten := by
  induction h with
  | nil => exact List.Perm.refl _
  | cons x _ ih =>
    rw [List.flatten_cons, List.flatten_cons]
    exact ih.append_left x
  | swap x y l =>
    rw [List.flatten_cons, List.flatten_cons, List.flatten_cons,
      List.flatten_cons, ← List.append_assoc, ← List.append_assoc]
    exact List.perm_append_comm.append_right _
  | trans _ _ ih1 ih2 => exact ih1.trans ih2

theorem forall₂_perm_map_same {α β : Type} (l : List α) (f g : α → List β)
    (h : ∀ k ∈ l, (f k).Perm (g k)) :
    List.Forall₂ (fun x y => x.Perm y) (l.map f) (l.map g) := by
  induction l with
  | nil => exact List.Forall₂.nil
  | cons a l ih =>
    exact List.Forall₂.cons (h a (by simp)) (ih fun k hk => h k (by simp [hk]))

/-! ## Claim theorems -/

/-- C1: for a label present (as a case-insensitive substring) only in the
true-positive column, in exactly `N` of its rows, the result row
`count_classifiers` produces for that label counts `N` true positives and
`0` in the three other categories. -/
theorem claim1_tp_only_label (t : Table) (cond : String) (N : Nat)
    (hmem : cond ∈ classifiers t)
    (htp : rowsContaining (origColumn t "true_positive") cond = N)
    (hfp : ∀ cell ∈ origColumn t "false_positive", ciContains cell cond = false)
    (htn : ∀ cell ∈ origColumn t "true_negative", ciContains cell cond = false)
    (hfn : ∀ cell ∈ origColumn t "false_negative", ciContains cell cond = false) :
    (∃ r ∈ countClassifiers t, r.condition = cond) ∧
      ∀ r ∈ countClassifiers t, r.condition = cond →
        r.tp = N ∧ r.fp = 0 ∧ r.tn = 0 ∧ r.fn = 0 := by
  constructor
  · exact ⟨resultRow t cond, List.mem_map_of_mem _ hmem, rfl⟩
  · intro r hr hcond
    obtain ⟨c, hc, rfl⟩ := mem_countClassifiers.mp hr
    have hceq : c = cond := hcond
    subst hceq
    exact ⟨(countContains_map_lower (origColumn t "true_positive") c).trans htp,
      (countContains_map_lower (origColumn t "false_positive") c).trans
        (rowsContaining_zero hfp),
      (countContains_map_lower (origColumn t "true_negative") c).trans
        (rowsContaining_zero htn),
      (countContains_map_lower (origColumn t "false_negative") c).trans
        (rowsContaining_zero hfn)⟩

theorem claim1_witness :
    (∃ r ∈ countClassifiers ⟨["true_positive", "false_positive",
        "true_negative", "false_negative"],
        [["flu", "cold", "", ""], ["flu", "", "", ""]]⟩, r.condition = "flu") ∧
      ∀ r ∈ countClassifiers ⟨["true_positive", "false_positive",
          "true_negative", "false_negative"],
          [["flu", "cold", "", ""], ["flu", "", "", ""]]⟩, r.condition = "flu" →
        r.tp = 2 ∧ r.fp = 0 ∧ r.tn = 0 ∧ r.fn = 0 :=
  claim1_tp_only_label _ "flu" 2 (by decide) (by decide) (by decide) (by decide)
    (by decide)

/-- C2: the count `count_classifiers` records for an extracted label in one of
the four semantic columns is the number of input rows whose cell text in that
column contains the label as a case-insensitive substring (`rowsContaining`,
which matches anywhere inside the cell value, not only at token
boundaries). -/
theorem claim2_counts_ci_substring (t : Table) (k cond : String) (r : ResultRow)
    (hk : k ∈ keyList) (hr : r ∈ countClassifiers t)
    (hcond : r.condition = cond) :
    categoryCount r k = rowsContaining (origColumn t k) cond := by
  obtain ⟨c, hc, rfl⟩ := mem_countClassifiers.mp hr
  have hceq : c = cond := hcond
  subst hceq
  exact categoryCount_resultRow t c k hk

theorem claim2_witness :
    categoryCount (resultRow ⟨["true_positive"], [["influenza"], ["flu"]]⟩ "flu")
        "true_positive" =
      rowsContaining (origColumn ⟨["true_positive"], [["influenza"], ["flu"]]⟩
        "true_positive") "flu" :=
  claim2_counts_ci_substring _ "true_positive" "flu" _ (by decide) (by decide) rfl

/-- C5: when none of the four expected columns is matched, the script emits
four warnings, extracts zero labels and returns an empty result table; and in
general every missing expected column is replaced by an all-`""` substitute
column, gets a warning, and yields count 0 in that category for every
label. -/
theorem claim5_missing_columns (t : Table) :
    ((∀ k ∈ keyList, matchedHeader t k = none) →
      (warnings t).length = 4 ∧ classifiers t = [] ∧ countClassifiers t = []) ∧
      ∀ k ∈ keyList, matchedHeader t k = none →
        k ∈ missingKeys t ∧ (∀ cell ∈ effColumn t k, cell = "") ∧
          ∀ r ∈ countClassifiers t, categoryCount r k = 0 := by
  constructor
  · intro hall
    have hpres : presentKeys t = [] := by
      unfold presentKeys
      apply List.filter_eq_nil_iff.mpr
      intro k hk
      simp [hall k hk]
    have hmiss : missingKeys t = keyList := by
      unfold missingKeys
      apply List.filter_eq_self.mpr
      intro k hk
      simp [hall k hk]
    refine ⟨?_, ?_, ?_⟩
    · unfold warnings
      rw [hmiss]
      rfl
    · unfold classifiers
      rw [hpres]
      rfl
    · unfold countClassifiers classifiers
      rw [hpres]
      rfl
  · intro k hk hknone
    refine ⟨List.mem_filter.mpr ⟨hk, by simp [hknone]⟩, ?_, ?_⟩
    · intro cell hcell
      unfold effColumn origColumn at hcell
      rw [hknone] at hcell
      obtain ⟨x, hx, rfl⟩ := List.mem_map.mp hcell
      obtain ⟨row, hrow, rfl⟩ := List.mem_map.mp hx
      rfl
    · intro r hr
      obtain ⟨c, hc, rfl⟩ := mem_countClassifiers.mp hr
      have hcne : c ≠ "" := classifiers_ne_empty c hc
      rw [categoryCount_resultRow t c k hk]
      apply rowsContaining_zero
      intro cell hcell
      unfold origColumn at hcell
      rw [hknone] at hcell
      obtain ⟨row, hrow, rfl⟩ := List.mem_map.mp hcell
      unfold ciContains strContains
      cases hcd : (lowerStr c).data with
      | nil =>
        exfalso
        apply hcne
        have hdata : c.data = [] := by
          have hlen := congrArg List.length hcd
          simp only [lowerStr, List.length_map, List.length_nil] at hlen
          exact List.length_eq_zero.mp hlen
        cases c with
        | mk d =>
          show String.mk d = ""
          exact congrArg String.mk hdata
      | cons x xs => rfl

theorem claim5_witness :
    (warnings ⟨["disease", "notes"], [["x", "y"]]⟩).length = 4 ∧
      classifiers ⟨["disease", "notes"], [["x", "y"]]⟩ = [] ∧
      countClassifiers ⟨["disease", "notes"], [["x", "y"]]⟩ = [] :=
  (claim5_missing_columns _).1 (by decide)

theorem origColumn_perm (t : Table) (rows' : List (List String))
    (hp : rows'.Perm t.rows) (k : String) :
    (origColumn ⟨t.headers, rows'⟩ k).Perm (origColumn t k) := by
  unfold origColumn
  have hm : matchedHeader ⟨t.headers, rows'⟩ k = matchedHeader t k := rfl
  rw [hm]
  cases matchedHeader t k with
  | none => exact hp.map _
  | some v =>
    show (colByName (normalizeColumns ⟨t.headers, rows'⟩) v).Perm
      (colByName (normalizeColumns t) v)
    unfold colByName
    have hh : (normalizeColumns ⟨t.headers, rows'⟩).headers =
        (normalizeColumns t).headers := rfl
    rw [hh]
    cases (normalizeColumns t).headers.findIdx? (fun h => h == v) with
    | none =>
      show (rows'.map fun _ => "").Perm (t.rows.map fun _ => "")
      exact hp.map _
    | some i =>
      show (rows'.map fun r => r.getD i "").Perm (t.rows.map fun r => r.getD i "")
      exact hp.map _

/-- C8: the set (indeed, the sorted list) of extracted labels is invariant
under permutation of the input rows. -/
theorem claim8_labels_perm_invariant (t : Table) (rows' : List (List String))
    (hp : rows'.Perm t.rows) :
    classifiers ⟨t.headers, rows'⟩ = classifiers t := by
  have hcol : ∀ k, (effColumn ⟨t.headers, rows'⟩ k).Perm (effColumn t k) := by
    intro k
    unfold effColumn
    exact (origColumn_perm t rows' hp k).map _
  have htok : ∀ k, (columnTokens (effColumn ⟨t.headers, rows'⟩ k)).Perm
      (columnTokens (effColumn t k)) := by
    intro k
    unfold columnTokens
    exact (perm_flatten ((hcol k).map _)).filter _
  have hpk : presentKeys ⟨t.headers, rows'⟩ = presentKeys t := rfl
  have hbig : ((((presentKeys ⟨t.headers, rows'⟩).map fun k =>
        columnTokens (effColumn ⟨t.headers, rows'⟩ k)).flatten).dedup).Perm
      ((((presentKeys t).map fun k =>
        columnTokens (effColumn t k)).flatten).dedup) := by
    apply List.Perm.dedup
    apply List.Perm.flatten_congr
    rw [hpk]
    exact forall₂_perm_map_same (presentKeys t) _ _ fun k _ => htok k
  unfold classifiers
  exact List.eq_of_perm_of_sorted
    ((List.perm_insertionSort _ _).trans
      (hbig.trans (List.perm_insertionSort _ _).symm))
    (List.sorted_insertionSort _ _) (List.sorted_insertionSort _ _)

theorem claim8_witness :
    classifiers ⟨["true_positive"], [["flu"], ["cold"]]⟩ =
      classifiers ⟨["true_positive"], [["cold"], ["flu"]]⟩ :=
  claim8_labels_perm_invariant ⟨["true_positive"], [["cold"], ["flu"]]⟩
    [["flu"], ["cold"]] (List.Perm.swap _ _ _)

/-- C10: for extracted labels `a` and `b` with `a` a substring of `b`, every
category count recorded for `a` is at least the one recorded for `b`
(containment of `b` implies containment of `a`), and every recorded count is
at most the number of input rows (it is a `Nat`, hence at least 0). -/
theorem claim10_substring_antitone (t : Table) (a b : String)
    (ha : a ∈ classifiers t) (hb : b ∈ classifiers t)
    (hab : strContains b a = true) :
    (∀ ra ∈ countClassifiers t, ∀ rb ∈ countClassifiers t,
      ra.condition = a → rb.condition = b →
        rb.tp ≤ ra.tp ∧ rb.fp ≤ ra.fp ∧ rb.tn ≤ ra.tn ∧ rb.fn ≤ ra.fn) ∧
      ∀ r ∈ countClassifiers t,
        r.tp ≤ t.rows.length ∧ r.fp ≤ t.rows.length ∧
          r.tn ≤ t.rows.length ∧ r.fn ≤ t.rows.length := by
  constructor
  · intro ra hra rb hrb hca hcb
    obtain ⟨ca, hcamem, rfl⟩ := mem_countClassifiers.mp hra
    obtain ⟨cb, hcbmem, rfl⟩ := mem_countClassifiers.mp hrb
    have hcaeq : ca = a := hca
    have hcbeq : cb = b := hcb
    subst hcaeq
    subst hcbeq
    exact ⟨countContains_anti _ hab, countContains_anti _ hab,
      countContains_anti _ hab, countContains_anti _ hab⟩
  · intro r hr
    obtain ⟨c, hc, rfl⟩ := mem_countClassifiers.mp hr
    exact ⟨countContains_effColumn_le t _ c, countContains_effColumn_le t _ c,
      countContains_effColumn_le t _ c, countContains_effColumn_le t _ c⟩

theorem claim10_witness :
    ((resultRow ⟨["true_positive"], [["influenza flu"], ["flu"]]⟩
        "influenza").tp ≤
      (resultRow ⟨["true_positive"], [["influenza flu"], ["flu"]]⟩ "flu").tp ∧
      (resultRow ⟨["true_positive"], [["influenza flu"], ["flu"]]⟩
        "influenza").fp ≤
      (resultRow ⟨["true_positive"], [["influenza flu"], ["flu"]]⟩ "flu").fp ∧
      (resultRow ⟨["true_positive"], [["influenza flu"], ["flu"]]⟩
        "influenza").tn ≤
      (resultRow ⟨["true_positive"], [["influenza flu"], ["flu"]]⟩ "flu").tn ∧
      (resultRow ⟨["true_positive"], [["influenza flu"], ["flu"]]⟩
        "influenza").fn ≤
      (resultRow ⟨["true_positive"], [["influenza flu"], ["flu"]]⟩ "flu").fn) :=
  (claim10_substring_antitone ⟨["true_positive"], [["influenza flu"], ["flu"]]⟩
      "flu" "influenza" (by decide) (by decide) (by decide)).1
    _ (by decide) _ (by decide) rfl rfl

theorem columnTokens_lower (col : List String) :
    columnTokens (col.map lowerStr) =
      (col.map fun cell => cellTokens (lowerStr cell)).flatten := by
  unfold columnTokens
  rw [List.map_map]
  have h1 : (col.map ((fun cell => (cellTokens cell).map trimStr) ∘ lowerStr))
      = col.map fun cell => cellTokens (lowerStr cell) := by
    apply List.map_congr_left
    intro cell _
    show (cellTokens (lowerStr cell)).map trimStr = cellTokens (lowerStr cell)
    have h2 : (cellTokens (lowerStr cell)).map trimStr
        = (cellTokens (lowerStr cell)).map id :=
      List.map_congr_left fun tok htok =>
        trimStr_id_of_word (cellTokens_word htok)
    rw [h2, List.map_id]
  rw [h1]
  apply List.filter_eq_self.mpr
  intro tok htok
  rw [List.mem_flatten] at htok
  obtain ⟨lc, hlc, htokmem⟩ := htok
  obtain ⟨cell, hcell, rfl⟩ := List.mem_map.mp hlc
  have := cellTokens_ne_empty htokmem
  simpa using this

theorem flatten_filter_mask {α β : Type} (ks : List α) (p : α → Bool)
    (f : α → List β) :
    ((ks.filter p).map f).flatten =
      (ks.map fun k => if p k then f k else []).flatten := by
  induction ks with
  | nil => rfl
  | cons a ks ih =>
    by_cases h : p a = true
    · rw [List.filter_cons_of_pos h, List.map_cons, List.map_cons,
        List.flatten_cons, List.flatten_cons, if_pos h, ih]
    · rw [List.filter_cons_of_neg (by simpa using h), List.map_cons,
        List.flatten_cons, if_neg (by simpa using h), ih]
      rfl

/-- C3 counterexample: on a cell `"Flu"` the script extracts the lowercased
label `"flu"`, not the raw token `"Flu"` that splitting the cell text itself
would give, so the extracted list differs from the claimed one. -/
theorem claim3_counterexample :
    classifiers ⟨["true_positive"], [["Flu"]]⟩ ≠
      specLabelsRaw ⟨["true_positive"], [["Flu"]]⟩ := by decide

/-- C3 (amended): the label list equals the deduplicated, lexicographically
sorted union of the non-empty tokens obtained by splitting the LOWERCASED
cell text of the four semantic columns on runs of non-word characters; and
every listed label is non-empty. -/
theorem claim3_labels_amended (t : Table) :
    classifiers t = specLabels t ∧ ∀ l ∈ classifiers t, l ≠ "" := by
  refine ⟨?_, classifiers_ne_empty⟩
  unfold classifiers specLabels
  congr 1
  congr 1
  have hpk : presentKeys t =
      keyList.filter fun k => (matchedHeader t k).isSome := rfl
  rw [hpk, flatten_filter_mask]
  congr 1
  apply List.map_congr_left
  intro k _
  cases h : matchedHeader t k with
  | none => simp [h]
  | some v =>
    simp only [h, Option.isSome_some, if_true]
    show columnTokens ((origColumn t k).map lowerStr) = _
    rw [columnTokens_lower]

theorem claim3_witness :
    classifiers ⟨["true_positive"], [["Flu, Cold"]]⟩ =
      specLabels ⟨["true_positive"], [["Flu, Cold"]]⟩ ∧ "flu" ≠ "" :=
  ⟨(claim3_labels_amended ⟨["true_positive"], [["Flu, Cold"]]⟩).1,
    (claim3_labels_amended ⟨["true_positive"], [["Flu, Cold"]]⟩).2 "flu"
      (by decide)⟩

/-- C4 counterexample: header matching is not whitespace-insensitive.
`"True Positive"` and `"True  Positive"` are equal up to whitespace, yet only
the first is matched to `true_positive`: normalization replaces each single
space by an underscore, so a doubled space yields `"true__positive"`, which
does not contain `"true_positive"`. -/
theorem claim4_counterexample :
    (matchedHeader ⟨["True Positive"], []⟩ "true_positive").isSome = true ∧
      (matchedHeader ⟨["True  Positive"], []⟩ "true_positive").isSome = false ∧
      stripWs "True Positive" = stripWs "True  Positive" := by decide

/-- C4 (amended): a semantic column is matched exactly when some header,
after trimming outer whitespace, lowercasing and replacing each space
character by an underscore, contains the expected name as a substring (so
`" True Positive "` matches `true_positive`, but headers whose internal
whitespace is not a single space, such as `"True  Positive"`, do not). -/
theorem claim4_header_matching (t : Table) (k : String) :
    (matchedHeader t k).isSome = true ↔
      ∃ h ∈ t.headers, strContains (normalizeHeader h) k = true := by
  unfold matchedHeader normalizeColumns
  rw [List.find?_isSome]
  constructor
  · rintro ⟨x, hx, hpx⟩
    obtain ⟨h, hh, rfl⟩ := List.mem_map.mp hx
    exact ⟨h, hh, hpx⟩
  · rintro ⟨h, hh, hph⟩
    exact ⟨normalizeHeader h, List.mem_map_of_mem _ hh, hph⟩

theorem claim4_witness :
    (matchedHeader ⟨[" True Positive "], []⟩ "true_positive").isSome = true :=
  (claim4_header_matching ⟨[" True Positive "], []⟩ "true_positive").mpr
    ⟨" True Positive ", by decide, by decide⟩

/-- The rendered sensitivity formula is exactly the string of line 146. -/
theorem renderFml_sensF (i : Nat) :
    renderFml i sensF = "=IFERROR(B" ++ toString i ++ "/(B" ++ toString i
      ++ "+E" ++ toString i ++ "), 0)" := by
  apply String.ext
  simp [renderFml, renderExpr, renderRef, sensF, String.data_append]

/-- The rendered specificity formula is exactly the string of line 147. -/
theorem renderFml_specF (i : Nat) :
    renderFml i specF = "=IFERROR(D" ++ toString i ++ "/(D" ++ toString i
      ++ "+C" ++ toString i ++ "),0)" := by
  apply String.ext
  simp [renderFml, renderExpr, renderRef, specF, String.data_append]

/-- The rendered `SUM` formulas are exactly the strings of lines 151–154. -/
theorem renderFml_sums (i : Nat) :
    renderFml i checkF = "=SUM(B" ++ toString i ++ "+C" ++ toString i ++ ")" ∧
      renderFml i posGtF = "=SUM(B" ++ toString i ++ "+E" ++ toString i ++ ")" ∧
      renderFml i negGtF = "=SUM(D" ++ toString i ++ "+C" ++ toString i ++ ")" ∧
      renderFml i gtCheckF = "=SUM(I" ++ toString i ++ "+J" ++ toString i ++ ")" := by
  refine ⟨?_, ?_, ?_, ?_⟩ <;>
    (apply String.ext
     simp [renderFml, renderExpr, renderRef, checkF, posGtF, negGtF, gtCheckF,
       String.data_append])

/-- C6: evaluated on the counts of a result row, the written formulas compute
sensitivity = TP/(TP+FN), specificity = TN/(TN+FP), check = TP+FP, positive
ground truth = TP+FN, negative ground truth = TN+FP and ground-truth check =
their sum, with a zero divisor guarded to the default 0 by `IFERROR`; in
particular the sensitivity formula evaluates to 0 when TP = FN = 0. -/
theorem claim6_formula_values (tp fp tn fn : ℚ) :
    evalFml (rowEnv tp fp tn fn) sensF =
        (if tp + fn = 0 then 0 else tp / (tp + fn)) ∧
      evalFml (rowEnv tp fp tn fn) specF =
        (if tn + fp = 0 then 0 else tn / (tn + fp)) ∧
      evalFml (rowEnv tp fp tn fn) checkF = tp + fp ∧
      evalFml (rowEnv tp fp tn fn) posGtF = tp + fn ∧
      evalFml (rowEnv tp fp tn fn) negGtF = tn + fp ∧
      evalFml (rowEnv tp fp tn fn) gtCheckF =
        evalFml (rowEnv tp fp tn fn) posGtF +
          evalFml (rowEnv tp fp tn fn) negGtF ∧
      (tp = 0 ∧ fn = 0 → evalFml (rowEnv tp fp tn fn) sensF = 0) := by
  refine ⟨?_, ?_, ?_, ?_, ?_, ?_, ?_⟩
  · by_cases h : tp + fn = 0 <;>
      simp [evalFml, evalExpr, sensF, rowEnv, h]
  · by_cases h : tn + fp = 0 <;>
      simp [evalFml, evalExpr, specF, rowEnv, h]
  · simp [evalFml, evalExpr, checkF, rowEnv]
  · simp [evalFml, evalExpr, posGtF, rowEnv]
  · simp [evalFml, evalExpr, negGtF, rowEnv]
  · simp [evalFml, evalExpr, gtCheckF, posGtF, negGtF, rowEnv]
  · rintro ⟨rfl, rfl⟩
    simp [evalFml, evalExpr, sensF, rowEnv]

theorem claim6_witness :
    evalFml (rowEnv 0 5 7 0) sensF = 0 :=
  (claim6_formula_values 0 5 7 0).2.2.2.2.2.2 ⟨rfl, rfl⟩

end CMG

namespace CMG

-- Sanity checks on concrete data (kernel evaluation of the embedding).
example : cellTokens "flu, common cold" = ["flu", "common", "cold"] := by decide
example : normalizeHeader " True Positive " = "true_positive" := by decide
example :
    classifiers ⟨["true_positive"], [["Flu, Cold"], ["flu"]]⟩ = ["cold", "flu"] := by
  decide
example :
    countClassifiers ⟨["True Positive"], [["Flu"], ["flu"]]⟩ =
      [⟨"flu", 2, 0, 0, 0⟩] := by decide

end CMG
